import Mathlib

/-!
Verification of the eplot/rupl plotting library (src/lib.rs) against its
natural-language specification.

The embedding is shallow: the numeric `f32` state of the program is modelled
over `ℚ` (exact rationals), so every algebraic identity proved here is the
ideal-arithmetic content of the floating-point code.  Rust-specific numeric
primitives (`%` on floats, `as u8` casts, `round`, `isqrt`) are modelled with
their documented Rust semantics (truncating remainder, saturating truncating
cast, round-half-away-from-zero, floor square root).
-/

namespace Eplot

/-! ## 2D coordinate transform (`Graph::to_screen` / `Graph::to_coord`)

`G2` holds the fields of `Graph` that the 2D transform reads:
`start`, `end` (the data range; `end` is a Lean keyword, spelled `end'`),
`screen.x`/`screen.y` (viewport size), `screen_offset` (x and y components),
`offset.get_2d()` (x and y components of the pan offset), and `zoom`. -/
structure G2 where
  start : ℚ
  end' : ℚ
  screenx : ℚ
  screeny : ℚ
  soX : ℚ
  soY : ℚ
  offX : ℚ
  offY : ℚ
  zoom : ℚ
deriving DecidableEq

/-- `Graph::to_screen`:
`(Pos2::new(x, -y) * self.screen.x / (self.end - self.start) + self.screen_offset + self.offset.get_2d()) * self.zoom`,
componentwise on the two coordinates. -/
def to_screen (g : G2) (x y : ℚ) : ℚ × ℚ :=
  ((x * g.screenx / (g.end' - g.start) + g.soX + g.offX) * g.zoom,
   ((-y) * g.screenx / (g.end' - g.start) + g.soY + g.offY) * g.zoom)

/-- `Graph::to_coord`:
`p = (p / self.zoom - self.offset.get_2d() - self.screen_offset) * (self.end - self.start) / self.screen.x; p.y *= -1.0`. -/
def to_coord (g : G2) (p : ℚ × ℚ) : ℚ × ℚ :=
  ((p.1 / g.zoom - g.offX - g.soX) * (g.end' - g.start) / g.screenx,
   -((p.2 / g.zoom - g.offY - g.soY) * (g.end' - g.start) / g.screenx))

/-- The zoom bounds `2.0f32.powi(-12)` and `2.0f32.powi(12)` (both exact in `f32`). -/
def zMin : ℚ := 1 / 4096

def zMax : ℚ := 4096

/-- C1: for every finite point `(x, y)`, every pan offset and every zoom in
`[2^(-12), 2^12]` (and any nondegenerate data range and screen width),
`to_coord (to_screen p) = p`: `to_coord` is the exact algebraic inverse of
`to_screen`, including the y-flip. -/
theorem to_coord_to_screen (g : G2) (x y : ℚ)
    (hz1 : zMin ≤ g.zoom) (hz2 : g.zoom ≤ zMax)
    (hsc : g.screenx ≠ 0) (hse : g.end' ≠ g.start) :
    to_coord g (to_screen g x y) = (x, y) := by
  have hz : g.zoom ≠ 0 := by
    have : (0 : ℚ) < g.zoom := lt_of_lt_of_le (by norm_num [zMin]) hz1
    exact ne_of_gt this
  have hd : g.end' - g.start ≠ 0 := sub_ne_zero.mpr hse
  unfold to_coord to_screen
  refine Prod.ext ?_ ?_
  · show (_ : ℚ) = x
    field_simp
    ring
  · show (_ : ℚ) = y
    field_simp
    ring

/-- Witness for C1 at a concrete state and point. -/
theorem to_coord_to_screen_witness :
    to_coord ⟨-2, 2, 640, 480, 320, 240, 5, -7, 4⟩
      (to_screen ⟨-2, 2, 640, 480, 320, 240, 5, -7, 4⟩ 3 (-11)) = (3, -11) :=
  to_coord_to_screen ⟨-2, 2, 640, 480, 320, 240, 5, -7, 4⟩ 3 (-11)
    (by norm_num [zMin]) (by norm_num [zMax]) (by norm_num) (by norm_num)

/-! ## Zoom operations (`Graph::keybinds`)

The `Q` / `E` key handlers (factor `rt = 2.0`):
`if key_pressed(Q) && self.zoom >= 2.0f32.powi(-12) { ... ; self.zoom /= rt; }`
`if key_pressed(E) && self.zoom <= 2.0f32.powi(12) { self.zoom *= rt; ... }`
The pan-offset compensation does not feed back into `zoom`, so the zoom field
evolution is captured by these two functions alone. -/

/-- Effect of one `Q` key press (zoom out) on the `zoom` field. -/
def zoomQ (z : ℚ) : ℚ := if zMin ≤ z then z / 2 else z

/-- Effect of one `E` key press (zoom in) on the `zoom` field. -/
def zoomE (z : ℚ) : ℚ := if z ≤ zMax then z * 2 else z

/-- A sequence of key zooms applied to the `zoom` field: `true` is an `E`
press (zoom in), `false` a `Q` press (zoom out). -/
def applyKeyZooms (ops : List Bool) (z : ℚ) : ℚ :=
  ops.foldl (fun z op => if op then zoomE z else zoomQ z) z

lemma zoomQ_mem (z : ℚ) (h1 : zMin / 2 ≤ z) (h2 : z ≤ zMax * 2) :
    zMin / 2 ≤ zoomQ z ∧ zoomQ z ≤ zMax * 2 := by
  unfold zoomQ
  split <;> constructor <;> first | linarith | (unfold zMin zMax at *; linarith)

lemma zoomE_mem (z : ℚ) (h1 : zMin / 2 ≤ z) (h2 : z ≤ zMax * 2) :
    zMin / 2 ≤ zoomE z ∧ zoomE z ≤ zMax * 2 := by
  unfold zoomE
  split <;> constructor <;> first | linarith | (unfold zMin zMax at *; linarith)

/-- C2 (amended): the zoom guards are pre-checks, so one key zoom from inside
`[2^(-12), 2^12]` can land outside; what holds is that any sequence of `Q`/`E`
key zooms started inside `[2^(-12), 2^12]` keeps `zoom` inside the wider range
`[2^(-13), 2^13]`, and an operation is a no-op only when `zoom` is already
beyond the corresponding bound. -/
theorem keyZoom_bounded (ops : List Bool) (z : ℚ)
    (h1 : zMin ≤ z) (h2 : z ≤ zMax) :
    zMin / 2 ≤ applyKeyZooms ops z ∧ applyKeyZooms ops z ≤ zMax * 2 := by
  have h1' : zMin / 2 ≤ z := by unfold zMin at *; linarith
  have h2' : z ≤ zMax * 2 := by unfold zMax at *; linarith
  clear h1 h2
  induction ops generalizing z with
  | nil => exact ⟨h1', h2'⟩
  | cons op ops ih =>
    show zMin / 2 ≤ applyKeyZooms ops (if op then zoomE z else zoomQ z) ∧ _
    cases op with
    | false => exact ih _ (zoomQ_mem z h1' h2').1 (zoomQ_mem z h1' h2').2
    | true => exact ih _ (zoomE_mem z h1' h2').1 (zoomE_mem z h1' h2').2

/-- Witness for C2's amended theorem at a concrete zoom sequence. -/
theorem keyZoom_bounded_witness :
    zMin / 2 ≤ applyKeyZooms [true, true, false] 1 ∧
      applyKeyZooms [true, true, false] 1 ≤ zMax * 2 :=
  keyZoom_bounded [true, true, false] 1 (by norm_num [zMin]) (by norm_num [zMax])

/-- C2 counterexample: starting from `zoom = 1` (in range), thirteen `E`
presses are all applied — the thirteenth is not a no-op even though it crosses
the bound — and leave `zoom = 2^13`, outside `[2^(-12), 2^12]`. -/
theorem keyZoom_escapes :
    zMin ≤ (1 : ℚ) ∧ (1 : ℚ) ≤ zMax ∧
      applyKeyZooms (List.replicate 13 true) 1 = 8192 ∧
      ¬(applyKeyZooms (List.replicate 13 true) 1 ≤ zMax) := by
  refine ⟨by norm_num [zMin], by norm_num [zMax], ?_, ?_⟩ <;>
    simp [applyKeyZooms, List.replicate, zoomE, zMax] <;> norm_num

/-! ## Graph modes and the mode cycle (`Key::B` handler in `Graph::keybinds`) -/

/-- The `GraphMode` enum. -/
inductive GraphMode where
  | Normal
  | Slice
  | SliceFlatten
  | SliceDepth
  | DomainColoring
  | Flatten
  | Depth
deriving DecidableEq, Fintype

/-- Forward mode cycle: the non-`shift` arms of the `Key::B` match on
`(graph_mode, is_3d)`, together with the `is_3d` assignments they perform. -/
def mode_fwd : GraphMode × Bool → GraphMode × Bool
  | (.Normal, true) => (.Slice, false)
  | (.Normal, false) => (.Flatten, false)
  | (.Slice, b) => (.SliceFlatten, b)
  | (.SliceFlatten, _) => (.SliceDepth, true)
  | (.SliceDepth, _) => (.DomainColoring, false)
  | (.DomainColoring, _) => (.Normal, true)
  | (.Flatten, _) => (.Depth, true)
  | (.Depth, _) => (.Normal, false)

/-- Backward mode cycle: the `if shift` arms of the `Key::B` match. -/
def mode_bwd : GraphMode × Bool → GraphMode × Bool
  | (.Normal, true) => (.DomainColoring, false)
  | (.Normal, false) => (.Depth, true)
  | (.Slice, _) => (.Normal, true)
  | (.SliceFlatten, b) => (.Slice, b)
  | (.SliceDepth, _) => (.SliceFlatten, false)
  | (.DomainColoring, _) => (.SliceDepth, true)
  | (.Flatten, b) => (.Normal, b)
  | (.Depth, _) => (.Flatten, false)

/-- The `(graph_mode, is_3d)` pairs reachable through the mode cycle: each of
the seven modes with the `is_3d` value(s) the cycle itself establishes
(`Normal` occurs with both values; every other mode with exactly one). -/
def reachableMode : GraphMode × Bool → Bool
  | (.Normal, _) => true
  | (.Slice, b) => !b
  | (.SliceFlatten, b) => !b
  | (.SliceDepth, b) => b
  | (.DomainColoring, b) => !b
  | (.Flatten, b) => !b
  | (.Depth, b) => b

lemma mode_step (s : GraphMode × Bool) (h : reachableMode s = true) :
    reachableMode (mode_fwd s) = true ∧ mode_bwd (mode_fwd s) = s := by
  revert h
  revert s
  decide

lemma mode_fwd_iterate (s : GraphMode × Bool) (h : reachableMode s = true)
    (n : ℕ) : reachableMode (mode_fwd^[n] s) = true := by
  induction n generalizing s with
  | zero => exact h
  | succ n ih =>
    rw [Function.iterate_succ_apply]
    exact ih _ (mode_step s h).1

/-- C3: from every `(graph_mode, is_3d)` state reachable through the mode
cycle (each of the 7 graph modes with its reachable `is_3d` value), `n`
forward `B` steps followed by `n` backward shift+`B` steps return the state
to the original pair, for every `n`. -/
theorem mode_cycle_roundtrip (s : GraphMode × Bool)
    (h : reachableMode s = true) (n : ℕ) :
    mode_bwd^[n] (mode_fwd^[n] s) = s := by
  induction n generalizing s with
  | zero => rfl
  | succ n ih =>
    have hr := mode_fwd_iterate s h n
    rw [Function.iterate_succ_apply' mode_fwd n s,
      Function.iterate_succ_apply mode_bwd n (mode_fwd (mode_fwd^[n] s)),
      (mode_step _ hr).2]
    exact ih s h

/-- Witness for C3 at a concrete state and step count. -/
theorem mode_cycle_roundtrip_witness :
    reachableMode (GraphMode.Normal, true) = true ∧
      mode_bwd^[3] (mode_fwd^[3] (GraphMode.Normal, true)) =
        (GraphMode.Normal, true) :=
  ⟨by decide, mode_cycle_roundtrip (GraphMode.Normal, true) (by decide) 3⟩


/-! ## 3D segment clipping (`Graph::draw_point_3d`)

In the source, when one endpoint of a consecutive sample pair is inside the
cube `[start, end]^3` (pan-z already applied) and the other is outside, the
outside point `vi` is pulled toward the inside point `v` sequentially per
axis:
```
let xi = vi.x;
if xi < self.start { vi = v + (vi - v) * ((self.start - x) / (xi - x)); }
else if xi > self.end { vi = v + (vi - v) * ((self.end - x) / (xi - x)); }
```
and the same for `y` then `z`, where `(x, y, z)` are the coordinates of the
inside point `v` and `vi` is updated in place between axes.  Both the
`cur`-inside and the `prev`-inside branches run this identical code with the
roles of the two endpoints assigned accordingly. -/

/-- The `Vec3` struct. -/
structure V3 where
  x : ℚ
  y : ℚ
  z : ℚ
deriving DecidableEq

instance : Add V3 := ⟨fun a b => ⟨a.x + b.x, a.y + b.y, a.z + b.z⟩⟩

instance : Sub V3 := ⟨fun a b => ⟨a.x - b.x, a.y - b.y, a.z - b.z⟩⟩

/-- `impl Mul<f32> for Vec3` (componentwise scale). -/
instance : HMul V3 ℚ V3 := ⟨fun a t => ⟨a.x * t, a.y * t, a.z * t⟩⟩

/-- One axis of the clip: given the inside point's axis value `a` and the
working point's axis value `ai`, the interpolation parameter the code uses,
or `none` when the axis is in range and the working point is left unchanged. -/
def clipT (s e a ai : ℚ) : Option ℚ :=
  if ai < s then some ((s - a) / (ai - a))
  else if e < ai then some ((e - a) / (ai - a))
  else none

/-- The x-axis clip step of `draw_point_3d`. -/
def clipX (s e : ℚ) (v vi : V3) : V3 :=
  match clipT s e v.x vi.x with
  | some t => v + (vi - v) * t
  | none => vi

/-- The y-axis clip step of `draw_point_3d` (applied to the updated point). -/
def clipY (s e : ℚ) (v vi : V3) : V3 :=
  match clipT s e v.y vi.y with
  | some t => v + (vi - v) * t
  | none => vi

/-- The z-axis clip step of `draw_point_3d` (applied to the updated point). -/
def clipZ (s e : ℚ) (v vi : V3) : V3 :=
  match clipT s e v.z vi.z with
  | some t => v + (vi - v) * t
  | none => vi

/-- The full sequential clip of `draw_point_3d`: x, then y, then z. -/
def clipPoint (s e : ℚ) (v vi : V3) : V3 :=
  clipZ s e v (clipY s e v (clipX s e v vi))

/-- Linear interpolation from `v` toward `vi` at parameter `t`, as written in
the source (`v + (vi - v) * t`). -/
def lerp3 (v vi : V3) (t : ℚ) : V3 := v + (vi - v) * t

/-- The cube boundary value crossed by an out-of-range axis value. -/
def clampB (s e ai : ℚ) : ℚ := if ai < s then s else e

/-- Inside the cube `[s, e]^3`, as `draw_point_3d` computes `inside`. -/
def insideCube (s e : ℚ) (p : V3) : Prop :=
  s ≤ p.x ∧ p.x ≤ e ∧ s ≤ p.y ∧ p.y ≤ e ∧ s ≤ p.z ∧ p.z ≤ e

instance (s e : ℚ) (p : V3) : Decidable (insideCube s e p) := by
  unfold insideCube; infer_instance

lemma clipT_in (s e a ai : ℚ) (h1 : s ≤ ai) (h2 : ai ≤ e) :
    clipT s e a ai = none := by
  unfold clipT
  rw [if_neg (not_lt.mpr h1), if_neg (not_lt.mpr h2)]

lemma clipT_out (s e a ai : ℚ) (ha1 : s ≤ a) (ha2 : a ≤ e)
    (hout : ai < s ∨ e < ai) :
    clipT s e a ai = some ((clampB s e ai - a) / (ai - a)) ∧
      0 ≤ (clampB s e ai - a) / (ai - a) ∧
      (clampB s e ai - a) / (ai - a) ≤ 1 ∧
      a + (ai - a) * ((clampB s e ai - a) / (ai - a)) = clampB s e ai := by
  rcases hout with h | h
  · have hne : a - ai > 0 := by linarith
    have heq : (s - a) / (ai - a) = (a - s) / (a - ai) := by
      rw [div_eq_div_iff (by linarith) (by linarith)]; ring
    have hb : clampB s e ai = s := by unfold clampB; rw [if_pos h]
    refine ⟨?_, ?_, ?_, ?_⟩
    · unfold clipT; rw [if_pos h, hb]
    · rw [hb, heq]; exact div_nonneg (by linarith) (by linarith)
    · rw [hb, heq, div_le_one hne]; linarith
    · have h0 : ai - a ≠ 0 := by linarith
      rw [hb]; field_simp
  · have hne : ai - a > 0 := by linarith
    have hb : clampB s e ai = e := by
      unfold clampB; rw [if_neg (not_lt.mpr (by linarith))]
    refine ⟨?_, ?_, ?_, ?_⟩
    · unfold clipT; rw [if_neg (not_lt.mpr (by linarith)), if_pos h, hb]
    · rw [hb]; exact div_nonneg (by linarith) (by linarith)
    · rw [hb, div_le_one hne]; linarith
    · have h0 : ai - a ≠ 0 := by linarith
      rw [hb]; field_simp

lemma lerp3_coords (v vi : V3) (t : ℚ) :
    (lerp3 v vi t).x = v.x + (vi.x - v.x) * t ∧
      (lerp3 v vi t).y = v.y + (vi.y - v.y) * t ∧
      (lerp3 v vi t).z = v.z + (vi.z - v.z) * t := by
  refine ⟨rfl, rfl, rfl⟩

lemma lerp3_scalar_mem (s e a b t : ℚ) (ha1 : s ≤ a) (ha2 : a ≤ e)
    (hb1 : s ≤ b) (hb2 : b ≤ e) (ht0 : 0 ≤ t) (ht1 : t ≤ 1) :
    s ≤ a + (b - a) * t ∧ a + (b - a) * t ≤ e := by
  constructor <;> nlinarith

lemma clipX_noop (s e : ℚ) (v vi : V3) (h1 : s ≤ vi.x) (h2 : vi.x ≤ e) :
    clipX s e v vi = vi := by
  unfold clipX; rw [clipT_in s e v.x vi.x h1 h2]

lemma clipY_noop (s e : ℚ) (v vi : V3) (h1 : s ≤ vi.y) (h2 : vi.y ≤ e) :
    clipY s e v vi = vi := by
  unfold clipY; rw [clipT_in s e v.y vi.y h1 h2]

lemma clipZ_noop (s e : ℚ) (v vi : V3) (h1 : s ≤ vi.z) (h2 : vi.z ≤ e) :
    clipZ s e v vi = vi := by
  unfold clipZ; rw [clipT_in s e v.z vi.z h1 h2]

lemma clipX_hit (s e : ℚ) (v vi : V3) (ha1 : s ≤ v.x) (ha2 : v.x ≤ e)
    (hout : vi.x < s ∨ e < vi.x) :
    clipX s e v vi = lerp3 v vi ((clampB s e vi.x - v.x) / (vi.x - v.x)) := by
  unfold clipX; rw [(clipT_out s e v.x vi.x ha1 ha2 hout).1]; rfl

lemma clipY_hit (s e : ℚ) (v vi : V3) (ha1 : s ≤ v.y) (ha2 : v.y ≤ e)
    (hout : vi.y < s ∨ e < vi.y) :
    clipY s e v vi = lerp3 v vi ((clampB s e vi.y - v.y) / (vi.y - v.y)) := by
  unfold clipY; rw [(clipT_out s e v.y vi.y ha1 ha2 hout).1]; rfl

lemma clipZ_hit (s e : ℚ) (v vi : V3) (ha1 : s ≤ v.z) (ha2 : v.z ≤ e)
    (hout : vi.z < s ∨ e < vi.z) :
    clipZ s e v vi = lerp3 v vi ((clampB s e vi.z - v.z) / (vi.z - v.z)) := by
  unfold clipZ; rw [(clipT_out s e v.z vi.z ha1 ha2 hout).1]; rfl

/-- C4: for a consecutive 3D sample pair with inside endpoint `v` and outside
endpoint `vi` that violates exactly one axis of the cube `[s, e]^3`, the
point computed by the sequential per-axis clip lies exactly on the cube
boundary on the violated axis, and the whole point — in particular its other
two coordinates — equals the linear interpolation `v + (vi - v) * t` between
the two endpoints at a single parameter `t ∈ [0, 1]`.  Stated as one
conjunction over the three possible violated axes. -/
theorem clip_single_axis (s e : ℚ) (v vi : V3) (hv : insideCube s e v) :
    ((vi.x < s ∨ e < vi.x) → s ≤ vi.y → vi.y ≤ e → s ≤ vi.z → vi.z ≤ e →
      ∃ t, 0 ≤ t ∧ t ≤ 1 ∧ clipPoint s e v vi = lerp3 v vi t ∧
        (clipPoint s e v vi).x = clampB s e vi.x) ∧
    ((vi.y < s ∨ e < vi.y) → s ≤ vi.x → vi.x ≤ e → s ≤ vi.z → vi.z ≤ e →
      ∃ t, 0 ≤ t ∧ t ≤ 1 ∧ clipPoint s e v vi = lerp3 v vi t ∧
        (clipPoint s e v vi).y = clampB s e vi.y) ∧
    ((vi.z < s ∨ e < vi.z) → s ≤ vi.x → vi.x ≤ e → s ≤ vi.y → vi.y ≤ e →
      ∃ t, 0 ≤ t ∧ t ≤ 1 ∧ clipPoint s e v vi = lerp3 v vi t ∧
        (clipPoint s e v vi).z = clampB s e vi.z) := by
  obtain ⟨hvx1, hvx2, hvy1, hvy2, hvz1, hvz2⟩ := hv
  refine ⟨?_, ?_, ?_⟩
  · intro hx hy1 hy2 hz1 hz2
    obtain ⟨-, ht0, ht1, hbd⟩ := clipT_out s e v.x vi.x hvx1 hvx2 hx
    set t := (clampB s e vi.x - v.x) / (vi.x - v.x) with hts
    have hwy := lerp3_scalar_mem s e v.y vi.y t hvy1 hvy2 hy1 hy2 ht0 ht1
    have hwz := lerp3_scalar_mem s e v.z vi.z t hvz1 hvz2 hz1 hz2 ht0 ht1
    have hcp : clipPoint s e v vi = lerp3 v vi t := by
      unfold clipPoint
      rw [clipX_hit s e v vi hvx1 hvx2 hx, ← hts,
        clipY_noop s e v _ hwy.1 hwy.2, clipZ_noop s e v _ hwz.1 hwz.2]
    exact ⟨t, ht0, ht1, hcp, by rw [hcp]; exact hbd⟩
  · intro hy hx1 hx2 hz1 hz2
    obtain ⟨-, ht0, ht1, hbd⟩ := clipT_out s e v.y vi.y hvy1 hvy2 hy
    set t := (clampB s e vi.y - v.y) / (vi.y - v.y) with hts
    have hwz := lerp3_scalar_mem s e v.z vi.z t hvz1 hvz2 hz1 hz2 ht0 ht1
    have hcp : clipPoint s e v vi = lerp3 v vi t := by
      unfold clipPoint
      rw [clipX_noop s e v vi hx1 hx2, clipY_hit s e v vi hvy1 hvy2 hy, ← hts,
        clipZ_noop s e v _ hwz.1 hwz.2]
    exact ⟨t, ht0, ht1, hcp, by rw [hcp]; exact hbd⟩
  · intro hz hx1 hx2 hy1 hy2
    obtain ⟨-, ht0, ht1, hbd⟩ := clipT_out s e v.z vi.z hvz1 hvz2 hz
    set t := (clampB s e vi.z - v.z) / (vi.z - v.z) with hts
    have hcp : clipPoint s e v vi = lerp3 v vi t := by
      unfold clipPoint
      rw [clipX_noop s e v vi hx1 hx2, clipY_noop s e v vi hy1 hy2,
        clipZ_hit s e v vi hvz1 hvz2 hz, ← hts]
    exact ⟨t, ht0, ht1, hcp, by rw [hcp]; exact hbd⟩

/-- Witness for C4: cube `[-1, 1]^3`, inside point `(0, 0, 0)`, outside point
`(2, 1/2, 1/2)` (outside only on the x axis, above the upper bound). -/
theorem clip_single_axis_witness :
    ∃ t, 0 ≤ t ∧ t ≤ 1 ∧
      clipPoint (-1) 1 ⟨0, 0, 0⟩ ⟨2, 1/2, 1/2⟩ =
        lerp3 ⟨0, 0, 0⟩ ⟨2, 1/2, 1/2⟩ t ∧
      (clipPoint (-1) 1 ⟨0, 0, 0⟩ ⟨2, 1/2, 1/2⟩).x = clampB (-1) 1 2 :=
  (clip_single_axis (-1) 1 ⟨0, 0, 0⟩ ⟨2, 1/2, 1/2⟩
      (by norm_num [insideCube])).1
    (Or.inr (by norm_num)) (by norm_num) (by norm_num) (by norm_num)
    (by norm_num)

/-! ## Rotation inputs (`Graph::keybinds`)

Every rotation input ends in Rust `% TAU` on `f32`.  Rust's `%` on floats is
the truncating remainder (`a - b * trunc(a / b)`), whose result has the sign
of the dividend, so wrapped angles can be negative.  `tau` is the exact
rational value of the `f32` constant `std::f32::consts::TAU`
(`13176795 * 2^(-21)`), and `rustRound` is `f32::round`
(round half away from zero), used by the WASD/arrow snap rotation. -/

/-- Truncation toward zero, as in Rust's float remainder. -/
def truncQ (q : ℚ) : ℤ := if 0 ≤ q then ⌊q⌋ else ⌈q⌉

/-- Rust `%` on floats: `a - b * trunc(a / b)`. -/
def rustRem (a b : ℚ) : ℚ := a - b * (truncQ (a / b) : ℚ)

/-- The exact rational value of the `f32` constant `TAU`. -/
def tau : ℚ := 13176795 / 2097152

/-- Rust `f32::round`: round half away from zero. -/
def rustRound (q : ℚ) : ℤ := if 0 ≤ q then ⌊q + 1/2⌋ else ⌈q - 1/2⌉

/-- A drag / multi-touch / scroll rotation update:
`self.phi = (self.phi + delta / 512.0) % TAU` (and identically for `theta`). -/
def rotDrag (phi d : ℚ) : ℚ := rustRem (phi + d / 512) tau

/-- A WASD/arrow snap rotation:
`self.phi = ((self.phi / b + dir).round() * b) % TAU` with `dir = ±1` and
`b = π/64` (or `π/16` with shift); `b` is left symbolic here. -/
def rotSnap (phi b dir : ℚ) : ℚ := rustRem ((rustRound (phi / b + dir) : ℚ) * b) tau

lemma trunc_lt (q : ℚ) : q - 1 < (truncQ q : ℚ) ∧ (truncQ q : ℚ) < q + 1 := by
  unfold truncQ
  split
  · exact ⟨Int.sub_one_lt_floor q, lt_of_le_of_lt (Int.floor_le q) (by linarith)⟩
  · exact ⟨lt_of_lt_of_le (by linarith) (Int.le_ceil q), Int.ceil_lt_add_one q⟩

lemma rustRem_bounds (a b : ℚ) (hb : 0 < b) :
    -b < rustRem a b ∧ rustRem a b < b := by
  obtain ⟨h1, h2⟩ := trunc_lt (a / b)
  have e : b * (a / b) = a := by field_simp
  unfold rustRem
  constructor <;> nlinarith [mul_lt_mul_of_pos_left h1 hb,
    mul_lt_mul_of_pos_left h2 hb]

/-- C5 (amended): after any rotation input — pointer drag, multi-touch
translation, scroll in 3D, or WASD/arrow snap rotation — `theta` and `phi`
lie in the open interval `(-2π, 2π)` (with `2π` the `f32` constant `TAU`):
Rust's `%` keeps the dividend's sign, so the result is bounded in magnitude
by `TAU` but is negative for negative accumulated angles, not reduced into
`[0, 2π)`. -/
theorem rotation_bounded (phi d b dir : ℚ) :
    (-tau < rotDrag phi d ∧ rotDrag phi d < tau) ∧
      (-tau < rotSnap phi b dir ∧ rotSnap phi b dir < tau) := by
  have ht : (0 : ℚ) < tau := by norm_num [tau]
  exact ⟨rustRem_bounds _ tau ht, rustRem_bounds _ tau ht⟩

/-- C5 counterexample: a pointer drag of `-512` pixels from `phi = 0` gives
`phi = (0 + (-512)/512) % TAU = -1`, which is not in `[0, 2π)`. -/
theorem rotation_negative :
    rotDrag 0 (-512) = -1 ∧ ¬(0 ≤ rotDrag 0 (-512)) := by
  have h : rotDrag 0 (-512) = -1 := by
    unfold rotDrag rustRem truncQ tau
    norm_num
  exact ⟨h, by rw [h]; norm_num⟩

/-! ## Grid side and slice extraction (`Graph::plot`, `Width3D` arms)

Every `Width3D` arm computes `let len = data.len().isqrt();` — Rust's
`usize::isqrt` is the floor square root, modelled by `Nat.sqrt`.  The slice
arms clamp `self.slice = self.slice.min(len - 1)` and then visit either
`data[slice * len..(slice + 1) * len]` (a contiguous row) or
`data.iter().skip(slice).step_by(len)` (a stride-`len` column); the
`SliceDepth` arm uses the row slice unconditionally, without consulting
`view_x`. -/

/-- `data.len().isqrt()`: the grid side used by every `Width3D` arm. -/
def gridLen (count : ℕ) : ℕ := Nat.sqrt count

lemma gridLen_eq (count len : ℕ) (h1 : len * len ≤ count)
    (h2 : count < (len + 1) * (len + 1)) : gridLen count = len :=
  le_antisymm (Nat.lt_succ_iff.mp (Nat.sqrt_lt.mpr h2)) (Nat.le_sqrt.mpr h1)

/-- Modelled from the spec: the spec's claimed grid side `⌈√count⌉`, for
comparison with the source's `gridLen`. -/
def specCeilSqrt (count : ℕ) : ℕ :=
  if Nat.sqrt count * Nat.sqrt count = count then Nat.sqrt count
  else Nat.sqrt count + 1

/-- `Iterator::step_by(len)` on a list: take the head, then skip `len - 1`. -/
def stepBy (len : ℕ) : List α → List α
  | [] => []
  | x :: xs => x :: stepBy len (xs.drop (len - 1))
termination_by l => l.length
decreasing_by simp; omega

/-- The row slice `data[s * len..(s + 1) * len]`. -/
def sliceRow (data : List α) (len s : ℕ) : List α :=
  (data.drop (s * len)).take ((s + 1) * len - s * len)

/-- The column slice `data.iter().skip(s).step_by(len)`. -/
def sliceCol (data : List α) (len s : ℕ) : List α :=
  stepBy len (data.drop s)

/-- The sample sequence visited by the `Width3D` slice arms of `Graph::plot`,
after the in-place clamp `self.slice = self.slice.min(len - 1)`: `Slice` and
`SliceFlatten` choose row or column by `view_x`; `SliceDepth` always takes
the row.  Non-slice modes are not modelled here and return `data`. -/
def sliceSamples (m : GraphMode) (view_x : Bool) (data : List α)
    (slice : ℕ) : List α :=
  let len := gridLen data.length
  let s := min slice (len - 1)
  match m with
  | .Slice => if view_x then sliceRow data len s else sliceCol data len s
  | .SliceFlatten => if view_x then sliceRow data len s else sliceCol data len s
  | .SliceDepth => sliceRow data len s
  | _ => data

lemma stepBy_getElem (len : ℕ) (hlen : 1 ≤ len) :
    ∀ (i : ℕ) (l : List α), (stepBy len l)[i]? = l[i * len]? := by
  intro i
  induction i with
  | zero =>
    intro l
    cases l with
    | nil => simp [stepBy]
    | cons x xs => simp [stepBy]
  | succ i ih =>
    intro l
    cases l with
    | nil => simp [stepBy]
    | cons x xs =>
      rw [stepBy, List.getElem?_cons_succ, ih (xs.drop (len - 1)),
        List.getElem?_drop]
      have hidx : (i + 1) * len = (len - 1 + i * len) + 1 := by
        rw [Nat.succ_mul]; omega
      rw [hidx, List.getElem?_cons_succ]

lemma sliceRow_getElem (data : List α) (len s i : ℕ) :
    (sliceRow data len s)[i]? =
      if i < (s + 1) * len - s * len then data[s * len + i]? else none := by
  unfold sliceRow
  rw [List.getElem?_take]
  split
  · rw [List.getElem?_drop]
  · rfl

/-- Witness-friendly name for the spec's column description
`data[s], data[s + len], data[s + 2 len], ...`. -/
lemma sliceCol_getElem (data : List α) (len s i : ℕ) (hlen : 1 ≤ len) :
    (sliceCol data len s)[i]? = data[s + i * len]? := by
  unfold sliceCol
  rw [stepBy_getElem len hlen, List.getElem?_drop]

/-- C6 (amended): for a `Width3D` dataset of `count = len * len` samples and
clamped slice index `s = min slice (len - 1)`, the `Slice` and `SliceFlatten`
arms extract row `data[s*len .. s*len+len]` when `view_x` is true and column
`data[s], data[s+len], data[s+2*len], ...` when `view_x` is false — but the
`SliceDepth` arm extracts the row regardless of `view_x`, ignoring the slice
orientation. -/
theorem slice_extraction (data : List ℚ) (len slice i : ℕ)
    (hlen : len = gridLen data.length) (h1 : 1 ≤ len)
    (hcount : data.length = len * len) (hi : i < len) :
    (sliceSamples .Slice true data slice)[i]? =
        data[min slice (len - 1) * len + i]? ∧
      (sliceSamples .SliceFlatten true data slice)[i]? =
        data[min slice (len - 1) * len + i]? ∧
      (sliceSamples .Slice false data slice)[i]? =
        data[min slice (len - 1) + i * len]? ∧
      (sliceSamples .SliceFlatten false data slice)[i]? =
        data[min slice (len - 1) + i * len]? ∧
      (sliceSamples .SliceDepth true data slice)[i]? =
        data[min slice (len - 1) * len + i]? ∧
      (sliceSamples .SliceDepth false data slice)[i]? =
        data[min slice (len - 1) * len + i]? := by
  have hrow : ∀ s : ℕ, (sliceRow data len s)[i]? = data[s * len + i]? := by
    intro s
    have hm : (s + 1) * len - s * len = len := by rw [Nat.succ_mul]; omega
    rw [sliceRow_getElem, hm, if_pos hi]
  have hcol := sliceCol_getElem data len (min slice (len - 1)) i h1
  refine ⟨?_, ?_, ?_, ?_, ?_, ?_⟩ <;>
    simp only [sliceSamples, ← hlen, if_true, if_false, Bool.false_eq_true] <;>
    first
      | exact hrow _
      | exact hcol

/-- Witness for C6 at a concrete 2×2 grid `[10, 11, 12, 13]`. -/
theorem slice_extraction_witness :
    (sliceSamples .Slice true [(10 : ℚ), 11, 12, 13] 1)[1]? =
        [(10 : ℚ), 11, 12, 13][min 1 (2 - 1) * 2 + 1]? ∧
      (sliceSamples .SliceFlatten true [(10 : ℚ), 11, 12, 13] 1)[1]? =
        [(10 : ℚ), 11, 12, 13][min 1 (2 - 1) * 2 + 1]? ∧
      (sliceSamples .Slice false [(10 : ℚ), 11, 12, 13] 1)[1]? =
        [(10 : ℚ), 11, 12, 13][min 1 (2 - 1) + 1 * 2]? ∧
      (sliceSamples .SliceFlatten false [(10 : ℚ), 11, 12, 13] 1)[1]? =
        [(10 : ℚ), 11, 12, 13][min 1 (2 - 1) + 1 * 2]? ∧
      (sliceSamples .SliceDepth true [(10 : ℚ), 11, 12, 13] 1)[1]? =
        [(10 : ℚ), 11, 12, 13][min 1 (2 - 1) * 2 + 1]? ∧
      (sliceSamples .SliceDepth false [(10 : ℚ), 11, 12, 13] 1)[1]? =
        [(10 : ℚ), 11, 12, 13][min 1 (2 - 1) * 2 + 1]? :=
  slice_extraction [(10 : ℚ), 11, 12, 13] 2 1 1
    ((gridLen_eq 4 2 (by decide) (by decide)).symm) (by decide)
    (by decide) (by decide)

/-- C6 counterexample: on the 2×2 grid `[10, 11, 12, 13]` with `view_x =
false` and slice 0, the claim predicts the column `10, 12` under all three
slice modes, but the `SliceDepth` arm extracts the row `10, 11`. -/
theorem slice_depth_ignores_view_x :
    sliceSamples .SliceDepth false [(10 : ℚ), 11, 12, 13] 0 = [10, 11] ∧
      sliceCol [(10 : ℚ), 11, 12, 13] 2 0 = [10, 12] ∧
      ([(10 : ℚ), 11] : List ℚ) ≠ [10, 12] := by
  have h4 : gridLen 4 = 2 := gridLen_eq 4 2 (by decide) (by decide)
  refine ⟨?_, ?_, by decide⟩
  · simp [sliceSamples, h4, sliceRow]
  · simp [sliceCol, stepBy]

/-- C8 (amended): the grid side used by every `Width3D` arm is
`len = ⌊√count⌋` (`isqrt`, the floor square root), not `⌈√count⌉`; the two
agree exactly when `count` is a perfect square. -/
theorem grid_len_floor_sqrt (count : ℕ) :
    gridLen count * gridLen count ≤ count ∧
      count < (gridLen count + 1) * (gridLen count + 1) ∧
      (gridLen count = specCeilSqrt count ↔
        Nat.sqrt count * Nat.sqrt count = count) := by
  refine ⟨Nat.sqrt_le count, ?_, ?_⟩
  · have := Nat.lt_succ_sqrt count
    simpa [gridLen, Nat.succ_eq_add_one] using this
  · unfold gridLen specCeilSqrt
    constructor
    · intro h
      by_contra hne
      rw [if_neg hne] at h
      omega
    · intro h
      rw [if_pos h]

/-- C8 counterexample: a `Width3D` dataset of `count = 5` samples gets grid
side `isqrt 5 = 2`, while the spec's `⌈√5⌉ = 3`. -/
theorem grid_len_five :
    gridLen 5 = 2 ∧ specCeilSqrt 5 = 3 ∧ (2 : ℕ) ≠ 3 := by
  have h5 : gridLen 5 = 2 := gridLen_eq 5 2 (by decide) (by decide)
  refine ⟨h5, ?_, by decide⟩
  have h5' : Nat.sqrt 5 = 2 := h5
  simp [specCeilSqrt, h5']

/-! ## Sample model and data mutation (`Complex`, `GraphType`, `Graph`)

`f32` sample values are modelled by `FV`: a finite rational or one of the
non-finite IEEE values (`NaN`, `inf`, `-inf`); `FV.isFinite` is
`f32::is_finite`. -/

inductive FV where
  | fin (q : ℚ)
  | nan
  | inf
  | ninf
deriving DecidableEq

/-- `f32::is_finite`. -/
def FV.isFinite : FV → Bool
  | .fin _ => true
  | _ => false

/-- The `Complex` enum (`Real` / `Imag` / `Complex` variants). -/
inductive Complex where
  | Real (y : FV)
  | Imag (z : FV)
  | Complex (y z : FV)
deriving DecidableEq

/-- `Complex::to_options`. -/
def Complex.to_options : Eplot.Complex → Option FV × Option FV
  | .Real y => (some y, none)
  | .Imag z => (none, some z)
  | .Complex y z => (some y, some z)

/-- `Complex::from` (`from` is a Lean keyword, spelled `from'`): total over
both optional channels; `(None, None)` yields `Complex(NAN, NAN)`. -/
def Complex.from' (y z : Option FV) : Eplot.Complex :=
  match y, z with
  | some y, some z => .Complex y z
  | some y, none => .Real y
  | none, some z => .Imag z
  | none, none => .Complex .nan .nan

/-- The `GraphType` enum (dataset shapes). -/
inductive GraphType where
  | Width (data : List Complex) (start end' : ℚ)
  | Coord (data : List (ℚ × Complex))
  | Width3D (data : List Complex) (start_x start_y end_x end_y : ℚ)
  | Coord3D (data : List (ℚ × ℚ × Complex))

/-- The free function `is_3d(data)`. -/
def is_3d (data : List GraphType) : Bool :=
  data.any fun c =>
    match c with
    | .Width3D _ _ _ _ _ => true
    | .Coord3D _ => true
    | _ => false

/-- The fields of `Graph` that the data-mutation API touches: the dataset
list, the cached domain-coloring texture (its handle modelled opaquely by
`Unit`), and the derived `is_3d` flag. -/
structure GraphData where
  data : List GraphType
  cache : Option Unit
  is_3d : Bool

/-- `Graph::set_data`: `self.data = data; self.cache = None; self.is_3d = is_3d(&self.data);`. -/
def set_data (g : GraphData) (data : List GraphType) : GraphData :=
  { g with data := data, cache := none, is_3d := is_3d data }

/-- `Graph::clear_data`: `self.data.clear(); self.cache = None;`. -/
def clear_data (g : GraphData) : GraphData :=
  { g with data := [], cache := none }

/-- `Graph::push_data`: `self.data.push(data); self.is_3d = is_3d(&self.data);`
(the cache is left untouched). -/
def push_data (g : GraphData) (data : GraphType) : GraphData :=
  { g with data := g.data ++ [data], is_3d := is_3d (g.data ++ [data]) }

/-- C7 (amended): wholesale replacement (`set_data`) and clearing
(`clear_data`) invalidate the cached domain-coloring texture, but extension
(`push_data`) leaves the cache untouched, so after a `push_data` the next
`DomainColoring` render still uses the stale texture. -/
theorem cache_invalidation (g : GraphData) (data : List GraphType)
    (d : GraphType) :
    (set_data g data).cache = none ∧ (clear_data g).cache = none ∧
      (push_data g d).cache = g.cache :=
  ⟨rfl, rfl, rfl⟩

/-- C7 counterexample: a graph with a live cached texture keeps it across
`push_data`, so this data mutation does not invalidate the cache. -/
theorem push_data_keeps_cache :
    (push_data ⟨[], some (), false⟩ (GraphType.Coord [])).cache = some () ∧
      some () ≠ (none : Option Unit) :=
  ⟨rfl, by decide⟩

/-! ## The finite-coordinate gate of `Graph::draw_point`

`draw_point` returns early (`return None`), drawing nothing, when either
coordinate is non-finite; otherwise it computes `to_screen`, draws the point
marker when the position is within 2 px of the screen, and (when `lines` is
on and the painted segment's rectangle is visible, an externally answered
query modelled by `vis`) a segment from `last`. -/

/-- A draw-surface command emitted by `draw_point`. -/
inductive Cmd where
  | rect (pos : ℚ × ℚ)
  | seg (a b : ℚ × ℚ)
deriving DecidableEq

/-- `Graph::draw_point`: returns the `Option<Pos2>` result together with the
draw commands emitted. -/
def draw_point (g : G2) (lines vis : Bool) (x y : FV)
    (last : Option (ℚ × ℚ)) : Option (ℚ × ℚ) × List Cmd :=
  match x, y with
  | .fin xq, .fin yq =>
    let pos := to_screen g xq yq
    let rects : List Cmd :=
      if -2 < pos.1 ∧ pos.1 < g.screenx + 2 ∧ -2 < pos.2 ∧ pos.2 < g.screeny + 2
      then [.rect pos] else []
    if lines then
      (some pos,
        rects ++ match last with
          | some l => if vis then [.seg l pos] else []
          | none => [])
    else (none, rects)
  | _, _ => (none, [])

/-- C10: `Complex::from` is total (it is a Lean function) and on the edge
case `(None, None)` returns `Complex(NaN, NaN)` rather than an error or a
distinguished empty variant; both channels of that sample are `NaN`, and
`draw_point` rejects any point with a `NaN` coordinate — it returns `None`
and emits no draw command — so such a sample is never drawn. -/
theorem from_none_none_never_drawn :
    Complex.from' none none = Complex.Complex FV.nan FV.nan ∧
      (Complex.from' none none).to_options = (some FV.nan, some FV.nan) ∧
      ∀ (g : G2) (lines vis : Bool) (last : Option (ℚ × ℚ)) (x : FV),
        draw_point g lines vis x FV.nan last = (none, []) ∧
          draw_point g lines vis FV.nan x last = (none, []) := by
  refine ⟨rfl, rfl, fun g lines vis last x => ⟨?_, ?_⟩⟩ <;> cases x <;> rfl

/-! ## Domain-coloring color mapping (`hsv2rgb` / `rgb2val`)

`rgb2val` outputs 8-bit channels with `(255.0 * c) as u8`: a Rust float-to-int
cast, which truncates toward zero and saturates to `[0, 255]`.  In `hsv2rgb`,
`i as usize` on the (possibly negative) float `hue.floor()` also saturates at
zero. -/

/-- Rust `as u8` on a float: truncate toward zero, saturating to `[0, 255]`. -/
def rustAsU8 (q : ℚ) : ℕ :=
  if q ≤ 0 then 0 else if 255 ≤ q then 255 else (⌊q⌋).toNat

/-- `rgb2val`: `[(255.0 * r) as u8, (255.0 * g) as u8, (255.0 * b) as u8]`. -/
def rgb2val (r g b : ℚ) : ℕ × ℕ × ℕ :=
  (rustAsU8 (255 * r), rustAsU8 (255 * g), rustAsU8 (255 * b))

/-- `hsv2rgb`: the standard six-sector HSV→RGB conversion, with the zero
saturation early return `rgb2val(val, val, val)` and the sector index
`i as usize % 6` (saturating cast of `hue.floor()`). -/
def hsv2rgb (hue sat val : ℚ) : ℕ × ℕ × ℕ :=
  if sat = 0 then rgb2val val val val
  else
    let i : ℚ := ⌊hue⌋
    let f := hue - i
    let p := val * (1 - sat)
    let q := val * (1 - sat * f)
    let t := val * (1 - sat * (1 - f))
    match (⌊hue⌋).toNat % 6 with
    | 0 => rgb2val val t p
    | 1 => rgb2val q val p
    | 2 => rgb2val p val t
    | 3 => rgb2val p q val
    | 4 => rgb2val t p val
    | _ => rgb2val val p q

/-- C9 (amended): for every hue `h` and every `v ∈ [0, 1]`,
`hsv2rgb h 0 v` returns the gray triple `(⌊255 v⌋, ⌊255 v⌋, ⌊255 v⌋)` —
`255 * v` truncated toward zero by the `as u8` cast, not rounded to the
nearest integer. -/
theorem hsv2rgb_zero_sat (h v : ℚ) (h0 : 0 ≤ v) (h1 : v ≤ 1) :
    hsv2rgb h 0 v = ((⌊255 * v⌋).toNat, (⌊255 * v⌋).toNat, (⌊255 * v⌋).toNat) := by
  have key : rustAsU8 (255 * v) = (⌊255 * v⌋).toNat := by
    unfold rustAsU8
    rcases le_or_lt (255 * v) 0 with hle | hpos
    · have : 255 * v = 0 := le_antisymm hle (by linarith)
      rw [if_pos hle, this]
      norm_num
    · rw [if_neg (not_le.mpr hpos)]
      rcases le_or_lt 255 (255 * v) with hge | hlt
      · have : v = 1 := by linarith
        rw [if_pos hge, this]
        norm_num
        decide
      · rw [if_neg (not_le.mpr hlt)]
  show rgb2val v v v = _
  unfold rgb2val
  rw [key]

/-- Witness for C9's amended theorem at `h = 0`, `v = 1/2`: the output is the
gray triple `(127, 127, 127)` (truncated from `127.5`). -/
theorem hsv2rgb_zero_sat_witness :
    hsv2rgb 0 0 (1/2) =
      ((⌊(255 : ℚ) * (1/2)⌋).toNat, (⌊(255 : ℚ) * (1/2)⌋).toNat,
        (⌊(255 : ℚ) * (1/2)⌋).toNat) :=
  hsv2rgb_zero_sat 0 (1/2) (by norm_num) (by norm_num)

/-- C9 counterexample: at `v = 1/2` the claimed rounding gives
`round(255 * 0.5) = round(127.5) = 128`, but `hsv2rgb(h, 0, 0.5)` returns
`127` on every channel: the cast truncates. -/
theorem hsv2rgb_truncates :
    hsv2rgb 0 0 (1/2) = (127, 127, 127) ∧
      round ((255 : ℚ) * (1/2)) = 128 ∧ (127 : ℕ) ≠ 128 := by
  refine ⟨?_, by norm_num [round_eq], by decide⟩
  have := hsv2rgb_zero_sat 0 (1/2) (by norm_num) (by norm_num)
  rw [this]
  norm_num
  decide

end Eplot
